import Mathlib

/-!
Verification of the Azure Blob getter (`get_azure_blob.go`) of go-getter.

The Go source is shallowly embedded: strings are `List Char`, the azblob SDK
boundary (credential construction, segment listing, blob download) is passed
in as explicit capability arguments, the local filesystem is an explicit
`FS` value, and control-flow outcomes distinguish a returned error
(`Outcome.err`), a `log.Fatal` process termination (`Outcome.fatal`), and a
nil-pointer dereference (`Outcome.panic`).
-/

set_option maxRecDepth 4000

/-- Splits a character list at the first occurrence of `c`: `some (before, after)`
with the occurrence removed, or `none` when `c` does not occur. -/
def breakOn (c : Char) : List Char → Option (List Char × List Char)
  | [] => none
  | x :: xs =>
    if x = c then some ([], xs)
    else
      match breakOn c xs with
      | none => none
      | some p => some (x :: p.1, p.2)

/-- Model of Go `strings.SplitN(s, sep, n)` for a one-character separator and
`n ≥ 1`: at most `n` pieces, the last piece holds the unsplit remainder;
the empty string yields `[""]`. -/
def splitN (c : Char) : Nat → List Char → List (List Char)
  | 0, _ => []
  | 1, s => [s]
  | n + 2, s =>
    match breakOn c s with
    | none => [s]
    | some p => p.1 :: splitN c (n + 1) p.2

/-- Accumulator for `splitAll`. -/
def splitAllAux (c : Char) : List Char → List Char → List (List Char)
  | [], acc => [acc.reverse]
  | x :: xs, acc =>
    if x = c then acc.reverse :: splitAllAux c xs []
    else splitAllAux c xs (x :: acc)

/-- Splits on every occurrence of `c` (Go `strings.Split`). -/
def splitAll (c : Char) (s : List Char) : List (List Char) :=
  splitAllAux c s []

/-- Model of Go `strings.TrimPrefix`. -/
def trimPref (p s : List Char) : List Char :=
  if p.isPrefixOf s then s.drop p.length else s

/-- Joins path elements with `'/'` (inverse of `splitAll '/'` on clean paths). -/
def joinSlash : List (List Char) → List Char
  | [] => []
  | [x] => x
  | x :: y :: xs => x ++ '/' :: joinSlash (y :: xs)

/-- Number of occurrences of the character `c` in `s`. -/
def countOcc (c : Char) (s : List Char) : Nat :=
  s.countP (fun x => decide (x = c))

/-- Whether the character `c` occurs in `s`. -/
def hasChar (c : Char) (s : List Char) : Bool :=
  s.any (fun x => decide (x = c))

/-- The fields of Go's `url.URL` that `get_azure_blob.go` reads: `u.Host`,
`u.Path`, and the decoded query parameters behind `u.Query()`. -/
structure GoURL where
  host : List Char
  path : List Char
  query : List (List Char × List Char)
deriving DecidableEq

/-- Model of `url.Values.Get`: first value for the key, or `""` when absent. -/
def queryGet (q : List (List Char × List Char)) (k : List Char) : List Char :=
  match q.find? (fun e => decide (e.1 = k)) with
  | some e => e.2
  | none => []

/-- Error values the embedded code produces or receives. -/
inductive GoErr where
  /-- `fmt.Errorf("URL is not a valid Azure Blob URL")` from `parseUrl`. -/
  | invalidURL
  /-- An error reported by the azblob store (download or listing transport). -/
  | store (msg : List Char)
  /-- An error from `azblob.NewSharedKeyCredential`. -/
  | cred (msg : List Char)
  /-- An error from `filepath.Rel`. -/
  | relErr
deriving DecidableEq

/-- The five string results of `parseUrl` (its `err` result is the `Except`). -/
structure ParsedUrl where
  accountName : List Char
  baseURL : List Char
  container : List Char
  blobPath : List Char
  accessKey : List Char
deriving DecidableEq

/-- How a Go computation of the embedded code ends: a normal return value, a
returned error, a `log.Fatal` (whole-process termination), or a runtime
panic (nil-pointer dereference). -/
inductive Outcome (α : Type) where
  | ok : α → Outcome α
  | err : GoErr → Outcome α
  | fatal : GoErr → Outcome α
  | panic : Outcome α
deriving DecidableEq

/-- Modelled from the spec: the repository's `ClientMode` enumeration
(`client_mode.go`) is not among the provided sources. The spec's
Classification Result is `{FILE, DIRECTORY}` (§3); go-getter's enumeration
declares `ClientModeInvalid` as the zero value (`ClientModeInvalid ClientMode
= iota`, then `ClientModeAny`, `ClientModeFile`, `ClientModeDir`), and the
source itself returns the zero value `0` alongside every error
(`return 0, err`), so `0` is the distinguished invalid value, distinct from
both `ClientModeFile` and `ClientModeDir`. -/
inductive ClientMode where
  | invalid
  | any
  | file
  | dir
deriving DecidableEq

/-- Result of one `ListBlobsFlatSegment` call: the `Segment.BlobItems` names.
(`NextMarker` handling is modelled by the position in the result stream:
the stream of an operation is the finite sequence of responses delivered
until the marker reports done.) -/
structure ListBlobsResponse where
  blobItems : List (List Char)
deriving DecidableEq

/-- One `ListBlobsFlatSegment` call result as the Go caller sees it: a
possibly-nil response pointer and a possibly-nil error. -/
abbrev ListResult := Option ListBlobsResponse × Option GoErr

/-- The items of a listing call result (empty for a nil response). -/
def respItems (r : ListResult) : List (List Char) :=
  match r.1 with
  | some resp => resp.blobItems
  | none => []

/-- Embedding of `(*AzureBlobGetter).parseUrl` (src lines 187-211):
`SplitN(u.Host, ".", 3)` must give 3 parts, `SplitN(TrimPrefix(u.Path, "/"),
"/", 2)` must give 2 parts, and the access key is query parameter
`access_key`. -/
def AzureBlobGetter.parseUrl (u : GoURL) : Except GoErr ParsedUrl :=
  let hostParts := splitN '.' 3 u.host
  if hostParts.length ≠ 3 then Except.error GoErr.invalidURL
  else
    let pathParts := splitN '/' 2 (trimPref ['/'] u.path)
    if pathParts.length ≠ 2 then Except.error GoErr.invalidURL
    else Except.ok
      { accountName := hostParts.getD 0 []
        baseURL := hostParts.getD 2 []
        container := pathParts.getD 0 []
        blobPath := pathParts.getD 1 []
        accessKey := queryGet u.query ("access_key".toList) }

/-- Embedding of `(*AzureBlobGetter).getBobClient` (src lines 171-185),
with `azblob.NewSharedKeyCredential` as the capability `mkCred`. On a
credential-construction error the Go code calls `log.Fatal(err)`, embedded
as `Outcome.fatal`; pipeline construction, the `url.Parse` of the service
URL format string, and `NewServiceURL` cannot fail and are pure in the
model. -/
def AzureBlobGetter.getBobClient (mkCred : List Char → List Char → Except GoErr Unit)
    (accountName baseURL accountKey : List Char) : Outcome Unit :=
  match mkCred accountName accountKey with
  | Except.error e => Outcome.fatal e
  | Except.ok _ =>
    let _ := baseURL
    Outcome.ok ()

/-- Embedding of the inner item loop of `ClientMode` (src lines 44-54).
Every branch of the Go loop body returns (`ClientModeFile` on an exact name
match, `ClientModeDir` when the name starts with `blobPath + "/"`, and the
zero value `0` otherwise), so only the first item of a non-empty segment is
ever inspected; `none` means the segment was empty and the loop fell
through. -/
def scanBlobItems (blobPath : List Char) : List (List Char) → Option ClientMode
  | [] => none
  | name :: _ =>
    if name = blobPath then some ClientMode.file
    else if (blobPath ++ ['/']).isPrefixOf name then some ClientMode.dir
    else some ClientMode.invalid

/-- Embedding of the marker loop of `ClientMode` (src lines 40-57) over the
stream of `ListBlobsFlatSegment` call results. The listing error is
assigned to the blank identifier in the source, so the error component of
each result is never consulted; a nil response makes the following
`listBlob.NextMarker` dereference panic. When the marker is done (stream
exhausted) the function returns `ClientModeFile, nil`. -/
def clientModeLoop (blobPath : List Char) : List ListResult → Outcome ClientMode
  | [] => Outcome.ok ClientMode.file
  | (none, _) :: _ => Outcome.panic
  | (some resp, _) :: rest =>
    match scanBlobItems blobPath resp.blobItems with
    | some m => Outcome.ok m
    | none => clientModeLoop blobPath rest

/-- Embedding of `(*AzureBlobGetter).ClientMode` (src lines 25-58):
parse the URL, build the client, then scan the listing for the blob path.
`listSeq container blobPath` is the stream of listing call results the
store yields for that container and prefix. -/
def AzureBlobGetter.ClientMode (mkCred : List Char → List Char → Except GoErr Unit)
    (listSeq : List Char → List Char → List ListResult) (u : GoURL) : Outcome ClientMode :=
  match AzureBlobGetter.parseUrl u with
  | Except.error e => Outcome.err e
  | Except.ok p =>
    match AzureBlobGetter.getBobClient mkCred p.accountName p.baseURL p.accessKey with
    | Outcome.err e => Outcome.err e
    | Outcome.fatal e => Outcome.fatal e
    | Outcome.panic => Outcome.panic
    | Outcome.ok _ => clientModeLoop p.blobPath (listSeq p.container p.blobPath)

/-- The local filesystem: regular files (path, content) and the set of
created directories. Later writes stand earlier in `files`. -/
structure FS where
  files : List (List Char × List Char)
  dirs : List (List Char)
deriving DecidableEq

/-- Whether `p` is `root` itself or lies strictly below `root`. -/
def underPath (root p : List Char) : Bool :=
  decide (p = root) || (root ++ ['/']).isPrefixOf p

/-- Whether `os.Stat p` succeeds: `p` is a file, a created directory, or an
ancestor of one. -/
def fsExists (fs : FS) (p : List Char) : Bool :=
  fs.files.any (fun e => underPath p e.1) || fs.dirs.any (fun d => underPath p d)

/-- Whether a regular file exists at `p`. -/
def hasFile (fs : FS) (p : List Char) : Bool :=
  fs.files.any (fun e => decide (e.1 = p))

/-- All the slash-separated ancestor prefixes of `p`, `p` included. -/
def ancestors (p : List Char) : List (List Char) :=
  let parts := splitAll '/' p
  (List.range parts.length).map (fun i => joinSlash (parts.take (i + 1)))

/-- Model of `os.MkdirAll p`: records `p` and its ancestors as directories. -/
def mkdirAllFS (fs : FS) (p : List Char) : FS :=
  ⟨fs.files, ancestors p ++ fs.dirs⟩

/-- Model of `os.RemoveAll p`: drops every file and directory at or below
`p`. -/
def removeAllFS (fs : FS) (p : List Char) : FS :=
  ⟨fs.files.filter (fun e => !(underPath p e.1)),
   fs.dirs.filter (fun d => !(underPath p d))⟩

/-- Model of `os.Create` plus `io.Copy`: truncating write of `c` at `p`. -/
def writeFileFS (fs : FS) (p c : List Char) : FS :=
  ⟨(p, c) :: fs.files.filter (fun e => !(decide (e.1 = p))), fs.dirs⟩

/-- Model of Go `filepath.Dir` for clean slash paths: everything before the
last separator, `"."` when there is none, `"/"` for a root child. -/
def fpDir (p : List Char) : List Char :=
  let parts := splitAll '/' p
  match parts with
  | [] => ['.']
  | [_] => ['.']
  | _ =>
    let front := parts.dropLast
    if front = [[]] then ['/'] else joinSlash front

/-- Drops the longest common element prefix of two element lists. -/
def dropCommon : List (List Char) → List (List Char) → List (List Char) × List (List Char)
  | x :: xs, y :: ys =>
    if x = y then dropCommon xs ys else (x :: xs, y :: ys)
  | xs, ys => (xs, ys)

/-- Model of Go `filepath.Rel(base, targ)` for already-clean slash paths
(the `Clean` normalization of the Go implementation is omitted; the paths
the getter passes are clean). Errors when exactly one side is absolute or
when reaching the target would have to traverse above a `".."` in the
base. -/
def fpRel (base targ : List Char) : Except GoErr (List Char) :=
  if (decide (base.head? = some '/') : Bool) ≠ (decide (targ.head? = some '/') : Bool) then
    Except.error GoErr.relErr
  else
    let bs := if base = ['.'] ∨ base = [] then [] else splitAll '/' base
    let ts := if targ = ['.'] ∨ targ = [] then [] else splitAll '/' targ
    let rem := dropCommon bs ts
    if rem.1.any (fun e => decide (e = ['.', '.'])) then Except.error GoErr.relErr
    else
      let elems := List.replicate rem.1.length ['.', '.'] ++ rem.2
      if elems = [] then Except.ok ['.'] else Except.ok (joinSlash elems)

/-- Model of Go `filepath.Join` on two components for clean inputs (the
`Clean` step is omitted). -/
def fpJoin (a b : List Char) : List Char :=
  if a = [] then b else if b = [] then a else a ++ '/' :: b

/-- The destination the `Get` loop computes for one listed item (src lines
103-117): `none` when the item is skipped (name ends in `"/"`) or when
`filepath.Rel` fails, else `filepath.Join dst (filepath.Rel blobPath name)`. -/
def treeDst (dst blobPath name : List Char) : Option (List Char) :=
  if ['/'].isSuffixOf name then none
  else
    match fpRel blobPath name with
    | Except.error _ => none
    | Except.ok r => some (fpJoin dst r)

/-- Embedding of `(*AzureBlobGetter).getObject` (src lines 142-169), with
the blob download as the capability `dl`. A store-reported download error
hits `log.Fatal(err)`: `Outcome.fatal`. On success the body is buffered,
the parent directory of `dst` is created, and the file is written (the
local `MkdirAll`/`Create`/`Copy` calls are modelled as always succeeding;
no claim injects filesystem faults). -/
def AzureBlobGetter.getObject (dl : List Char → List Char → Except GoErr (List Char))
    (dst container blobName : List Char) (fs : FS) : Outcome FS :=
  match dl container blobName with
  | Except.error e => Outcome.fatal e
  | Except.ok body =>
    let fs1 := mkdirAllFS fs (fpDir dst)
    Outcome.ok (writeFileFS fs1 dst body)

/-- Embedding of the inner item loop of `Get` (src lines 103-122): skip
directory-marker names (suffix `"/"`), compute the destination with
`filepath.Rel`/`filepath.Join`, download each object; the first failure
aborts. -/
def getItems (dl : List Char → List Char → Except GoErr (List Char))
    (dst container blobPath : List Char) : List (List Char) → FS → Outcome FS
  | [], fs => Outcome.ok fs
  | objPath :: rest, fs =>
    if ['/'].isSuffixOf objPath then getItems dl dst container blobPath rest fs
    else
      match fpRel blobPath objPath with
      | Except.error e => Outcome.err e
      | Except.ok r =>
        match AzureBlobGetter.getObject dl (fpJoin dst r) container objPath fs with
        | Outcome.ok fs1 => getItems dl dst container blobPath rest fs1
        | Outcome.err e => Outcome.err e
        | Outcome.fatal e => Outcome.fatal e
        | Outcome.panic => Outcome.panic

/-- Embedding of the marker loop of `Get` (src lines 93-123): as in
`ClientMode`, the listing error is discarded (blank identifier) and a nil
response panics on the `NextMarker` dereference. -/
def getLoop (dl : List Char → List Char → Except GoErr (List Char))
    (dst container blobPath : List Char) : List ListResult → FS → Outcome FS
  | [], fs => Outcome.ok fs
  | (none, _) :: _, _ => Outcome.panic
  | (some resp, _) :: rest, fs =>
    match getItems dl dst container blobPath resp.blobItems fs with
    | Outcome.ok fs1 => getLoop dl dst container blobPath rest fs1
    | Outcome.err e => Outcome.err e
    | Outcome.fatal e => Outcome.fatal e
    | Outcome.panic => Outcome.panic

/-- Embedding of `(*AzureBlobGetter).Get` (src lines 60-126): parse, remove
a pre-existing destination, create the destination's parent directories,
build the client, then walk the listing downloading each object. -/
def AzureBlobGetter.Get (mkCred : List Char → List Char → Except GoErr Unit)
    (listSeq : List Char → List Char → List ListResult)
    (dl : List Char → List Char → Except GoErr (List Char))
    (dst : List Char) (u : GoURL) (fs : FS) : Outcome FS :=
  match AzureBlobGetter.parseUrl u with
  | Except.error e => Outcome.err e
  | Except.ok p =>
    let fs1 := if fsExists fs dst then removeAllFS fs dst else fs
    let fs2 := mkdirAllFS fs1 (fpDir dst)
    match AzureBlobGetter.getBobClient mkCred p.accountName p.baseURL p.accessKey with
    | Outcome.err e => Outcome.err e
    | Outcome.fatal e => Outcome.fatal e
    | Outcome.panic => Outcome.panic
    | Outcome.ok _ => getLoop dl dst p.container p.blobPath (listSeq p.container p.blobPath) fs2

/-- Embedding of `(*AzureBlobGetter).GetFile` (src lines 128-140): parse,
build the client, download the single object to `dst`. -/
def AzureBlobGetter.GetFile (mkCred : List Char → List Char → Except GoErr Unit)
    (dl : List Char → List Char → Except GoErr (List Char))
    (dst : List Char) (u : GoURL) (fs : FS) : Outcome FS :=
  match AzureBlobGetter.parseUrl u with
  | Except.error e => Outcome.err e
  | Except.ok p =>
    match AzureBlobGetter.getBobClient mkCred p.accountName p.baseURL p.accessKey with
    | Outcome.err e => Outcome.err e
    | Outcome.fatal e => Outcome.fatal e
    | Outcome.panic => Outcome.panic
    | Outcome.ok _ => AzureBlobGetter.getObject dl dst p.container p.blobPath fs

/-- Decidable equality for `Except`, needed for concrete evaluation. -/
instance {ε α : Type} [DecidableEq ε] [DecidableEq α] : DecidableEq (Except ε α) :=
  fun x y =>
    match x, y with
    | Except.ok a, Except.ok b =>
      if h : a = b then Decidable.isTrue (by rw [h])
      else Decidable.isFalse (by intro hh; cases hh; exact h rfl)
    | Except.error a, Except.error b =>
      if h : a = b then Decidable.isTrue (by rw [h])
      else Decidable.isFalse (by intro hh; cases hh; exact h rfl)
    | Except.ok _, Except.error _ => Decidable.isFalse (by intro hh; cases hh)
    | Except.error _, Except.ok _ => Decidable.isFalse (by intro hh; cases hh)

/-- C7: parsing `https://acct.store.example.com/container/a/b/c?access_key=K`
yields account `acct`, base domain `example.com`, container `container`,
object path `a/b/c`, and access token `K`. `parseUrl` is embedded as a pure
Lean function of the address alone, so it performs no I/O and is
deterministic in the address string. -/
theorem c7_parse_roundtrip :
    AzureBlobGetter.parseUrl
      ⟨"acct.store.example.com".toList, "/container/a/b/c".toList,
        [("access_key".toList, "K".toList)]⟩ =
      Except.ok ⟨"acct".toList, "example.com".toList, "container".toList,
        "a/b/c".toList, "K".toList⟩ := by
  decide

/-- C4 counterexample: two addresses on which the claim demands an
`InvalidAddress` failure but `parseUrl` succeeds. For
`https://acct.store.example.com/container/` the object path is empty, and
for `https://acct.store.example.com//obj` the container is empty, so in
both cases "the path does not decompose into a non-empty container and a
non-empty object path"; yet `parseUrl` returns `ok` (with the empty
component) rather than an error. -/
theorem c4_empty_components_accepted :
    (AzureBlobGetter.parseUrl ⟨"acct.store.example.com".toList, "/container/".toList, []⟩ =
      Except.ok ⟨"acct".toList, "example.com".toList, "container".toList, [], []⟩) ∧
    (AzureBlobGetter.parseUrl ⟨"acct.store.example.com".toList, "//obj".toList, []⟩ =
      Except.ok ⟨"acct".toList, "example.com".toList, [], "obj".toList, []⟩) := by
  constructor
  · decide
  · decide

/-- C1 is right and the code is wrong: a store-reported download failure in
`getObject` and a credential-construction failure in `getBobClient` run
into `log.Fatal(err)`, terminating the whole process (`Outcome.fatal`)
instead of returning the error, and `GetFile` of a nonexistent object hence
also terminates the process — contradicting the claim and the repository's
own tests (`TestAzureBlobGetter_GetFile_notfound`,
`TestAzureBlobGetter_GetFile_badParams`), which expect a non-nil error
return. -/
theorem c1_fatal_instead_of_error_return :
    (AzureBlobGetter.getObject
        (fun _ _ => Except.error (GoErr.store "BlobNotFound".toList))
        "dst".toList "go-getter".toList "folder/404.tf".toList ⟨[], []⟩ =
      Outcome.fatal (GoErr.store "BlobNotFound".toList)) ∧
    (AzureBlobGetter.getBobClient
        (fun _ _ => Except.error (GoErr.cred "illegal base64 data".toList))
        "acct".toList "core.windows.net".toList "foo".toList =
      Outcome.fatal (GoErr.cred "illegal base64 data".toList)) ∧
    (AzureBlobGetter.GetFile (fun _ _ => Except.ok ())
        (fun _ _ => Except.error (GoErr.store "BlobNotFound".toList))
        "dst".toList
        ⟨"acct.blob.core.windows.net".toList, "/go-getter/folder/404.tf".toList, []⟩
        ⟨[], []⟩ =
      Outcome.fatal (GoErr.store "BlobNotFound".toList)) := by
  refine ⟨by decide, by decide, by decide⟩

/-- C2 is right and the code is wrong: both listing loops assign the
`ListBlobsFlatSegment` error to the blank identifier (the `handleErrors(err)`
call is commented out in the source), so when the first page fetch fails
with a transport error (nil response, non-nil error) the error is never
returned; instead the nil response is dereferenced (`listBlob.NextMarker`),
a panic, in `ClientMode` and in `Get` alike. -/
theorem c2_listing_error_swallowed :
    (clientModeLoop "folder".toList [(none, some (GoErr.store "network failure".toList))] =
      Outcome.panic) ∧
    (AzureBlobGetter.ClientMode (fun _ _ => Except.ok ())
        (fun _ _ => [(none, some (GoErr.store "network failure".toList))])
        ⟨"acct.blob.core.windows.net".toList, "/go-getter/folder".toList, []⟩ =
      Outcome.panic) ∧
    (AzureBlobGetter.Get (fun _ _ => Except.ok ())
        (fun _ _ => [(none, some (GoErr.store "network failure".toList))])
        (fun _ n => Except.ok n) "dst".toList
        ⟨"acct.blob.core.windows.net".toList, "/go-getter/folder".toList, []⟩
        ⟨[], []⟩ =
      Outcome.panic) := by
  refine ⟨by decide, by decide, by decide⟩

/-- C3 is right about stopping and about the nil error, but the code is
wrong about the classification: on a first listed item that neither equals
the object path nor extends it past a separator, `ClientMode` executes
`return 0, nil`, and `0` is the zero value `ClientModeInvalid`, not
`ClientModeFile`. At object path `fold` over a store listing
`folder/main.tf` first (the situation of the repository's own
`TestAzureBlobGetter_ClientMode_notfound`, which demands `ClientModeFile`)
the result is `ClientModeInvalid` with a nil error. -/
theorem c3_first_nonmatching_yields_invalid :
    (AzureBlobGetter.ClientMode (fun _ _ => Except.ok ())
        (fun _ _ =>
          [(some ⟨["folder/main.tf".toList, "folder/subfolder/sub.tf".toList]⟩, none)])
        ⟨"acct.blob.core.windows.net".toList, "/go-getter/fold".toList, []⟩ =
      Outcome.ok ClientMode.invalid) ∧
    Outcome.ok ClientMode.invalid ≠ (Outcome.ok ClientMode.file : Outcome ClientMode) := by
  refine ⟨by decide, by decide⟩

/-- The item scan never reads past the first item of a segment. -/
theorem scanBlobItems_head_only (bp n : List Char) (r r' : List (List Char)) :
    scanBlobItems bp (n :: r) = scanBlobItems bp (n :: r') := rfl

/-- C10: the classification is decided entirely by the first item of the
first non-empty segment. Every branch of the per-item scan returns, so the
scan of a non-empty segment ignores all items after the first; an empty
segment passes control to the next page; and once a page is non-empty, the
remaining pages are irrelevant to the result. -/
theorem c10_first_item_decides :
    (∀ (bp n : List Char) (r r' : List (List Char)),
        scanBlobItems bp (n :: r) = scanBlobItems bp (n :: r')) ∧
    (∀ (bp : List Char) (e : Option GoErr) (rest : List ListResult),
        clientModeLoop bp ((some ⟨[]⟩, e) :: rest) = clientModeLoop bp rest) ∧
    (∀ (bp : List Char) (resp : ListBlobsResponse) (e : Option GoErr)
        (rest rest' : List ListResult), resp.blobItems ≠ [] →
        clientModeLoop bp ((some resp, e) :: rest) =
          clientModeLoop bp ((some resp, e) :: rest')) := by
  refine ⟨fun bp n r r' => rfl, fun bp e rest => rfl, ?_⟩
  intro bp resp e rest rest' h
  rcases resp with ⟨items⟩
  cases items with
  | nil => simp at h
  | cons n t =>
    by_cases h1 : n = bp <;>
      by_cases h2 : ((bp ++ ['/']).isPrefixOf n : Bool) = true <;>
        simp [clientModeLoop, scanBlobItems, h1, h2]

/-- C10 witness: a listing whose first page holds item `b` classifies the
same whatever the later pages are. -/
theorem c10_first_item_decides_witness :
    clientModeLoop "a".toList [(some ⟨["b".toList]⟩, none), (none, none)] =
      clientModeLoop "a".toList [(some ⟨["b".toList]⟩, none)] :=
  c10_first_item_decides.2.2 "a".toList ⟨["b".toList]⟩ none [(none, none)] [] (by decide)

/-- C5: the exact-name test runs before the separator-bounded prefix test.
An item equal to the object path always classifies FILE; a DIRECTORY
classification can only come from an item extending `objectPath ++ "/"`;
`fold` against a listing led by `folder/x` is never DIRECTORY; and an exact
match stays FILE whatever directory-like items follow it in the listing. -/
theorem c5_exact_match_precedence :
    (∀ (bp : List Char) (rest : List (List Char)),
        scanBlobItems bp (bp :: rest) = some ClientMode.file) ∧
    (∀ (bp name : List Char) (rest : List (List Char)),
        scanBlobItems bp (name :: rest) = some ClientMode.dir →
          (bp ++ ['/']).isPrefixOf name = true ∧ name ≠ bp) ∧
    (∀ rest : List (List Char),
        scanBlobItems "fold".toList ("folder/x".toList :: rest) ≠ some ClientMode.dir) ∧
    (∀ (rest : List (List Char)) (pages : List ListResult),
        clientModeLoop "collision/foo".toList
          ((some ⟨"collision/foo".toList :: rest⟩, none) :: pages) =
          Outcome.ok ClientMode.file) := by
  refine ⟨?_, ?_, ?_, ?_⟩
  · intro bp rest; simp [scanBlobItems]
  · intro bp name rest h
    by_cases h1 : name = bp
    · simp [scanBlobItems, h1] at h
    · by_cases h2 : ((bp ++ ['/']).isPrefixOf name : Bool) = true
      · exact ⟨h2, h1⟩
      · simp [scanBlobItems, h1, h2] at h
  · intro rest h
    have he : scanBlobItems "fold".toList ("folder/x".toList :: rest) =
        some ClientMode.invalid := rfl
    rw [he] at h
    simp at h
  · intro rest pages; simp [clientModeLoop, scanBlobItems]

/-- C5 witness: concrete instances of each conjunct — exact match first
(`a` against `[a, a/b]`), the separator requirement extracted from a
DIRECTORY verdict (`a` against `a/b`), `fold` against `folder/x`, and the
collision store of the spec's §8. -/
theorem c5_exact_match_precedence_witness :
    scanBlobItems "a".toList ["a".toList, "a/b".toList] = some ClientMode.file ∧
    (("a".toList ++ ['/']).isPrefixOf "a/b".toList = true ∧ "a/b".toList ≠ "a".toList) ∧
    scanBlobItems "fold".toList ["folder/x".toList] ≠ some ClientMode.dir ∧
    clientModeLoop "collision/foo".toList
      [(some ⟨["collision/foo".toList, "collision/foo/bar".toList]⟩, none)] =
      Outcome.ok ClientMode.file :=
  ⟨c5_exact_match_precedence.1 "a".toList ["a/b".toList],
   c5_exact_match_precedence.2.1 "a".toList "a/b".toList [] (by decide),
   c5_exact_match_precedence.2.2.1 [],
   c5_exact_match_precedence.2.2.2 ["collision/foo/bar".toList] []⟩

/-- A listing whose every delivered segment is non-nil and empty makes the
marker loop fall through to `return ClientModeFile, nil`. -/
theorem clientModeLoop_all_empty (bp : List Char) (rs : List ListResult)
    (h : ∀ r ∈ rs, r.1 = some ⟨[]⟩) : clientModeLoop bp rs = Outcome.ok ClientMode.file := by
  induction rs with
  | nil => rfl
  | cons r rest ih =>
    have h1 : r.1 = some ⟨[]⟩ := h r (List.mem_cons_self r rest)
    rcases r with ⟨o, e⟩
    simp only at h1
    subst h1
    simpa [clientModeLoop, scanBlobItems] using
      ih (fun x hx => h x (List.mem_cons_of_mem _ hx))

/-- C6: when the address parses, the credential builds, and every listing
page arrives non-nil and empty (the object does not exist), `ClientMode`
returns the FILE classification with no error — absence is not reported
here. -/
theorem c6_empty_listing_defaults_file
    (mkCred : List Char → List Char → Except GoErr Unit)
    (listSeq : List Char → List Char → List ListResult) (u : GoURL) (p : ParsedUrl)
    (hp : AzureBlobGetter.parseUrl u = Except.ok p)
    (hc : mkCred p.accountName p.accessKey = Except.ok ())
    (hl : ∀ r ∈ listSeq p.container p.blobPath, r.1 = some ⟨[]⟩) :
    AzureBlobGetter.ClientMode mkCred listSeq u = Outcome.ok ClientMode.file := by
  simp only [AzureBlobGetter.ClientMode, hp, AzureBlobGetter.getBobClient, hc]
  exact clientModeLoop_all_empty _ _ hl

/-- C6 witness: an address over a two-page listing, both pages empty,
classifies as FILE. -/
theorem c6_empty_listing_defaults_file_witness :
    AzureBlobGetter.ClientMode (fun _ _ => Except.ok ())
      (fun _ _ => [(some ⟨[]⟩, none), (some ⟨[]⟩, none)])
      ⟨"acct.blob.core.windows.net".toList, "/go-getter/folder/nope.tf".toList, []⟩ =
      Outcome.ok ClientMode.file :=
  c6_empty_listing_defaults_file _ _ _
    ⟨"acct".toList, "core.windows.net".toList, "go-getter".toList,
      "folder/nope.tf".toList, []⟩
    (by decide) (by decide) (by decide)

/-- On a miss `breakOn` reports the character absent; on a hit it splits
off exactly one occurrence. -/
theorem breakOn_spec (c : Char) (s : List Char) :
    (breakOn c s = none → hasChar c s = false) ∧
    (∀ a b, breakOn c s = some (a, b) →
      hasChar c s = true ∧ countOcc c s = countOcc c b + 1) := by
  induction s with
  | nil =>
    refine ⟨fun _ => rfl, fun a b h => ?_⟩
    simp [breakOn] at h
  | cons x xs ih =>
    by_cases hx : x = c
    · refine ⟨fun h => ?_, fun a b h => ?_⟩
      · simp [breakOn, hx] at h
      · simp only [breakOn, if_pos hx, Option.some.injEq, Prod.mk.injEq] at h
        obtain ⟨_, hb⟩ := h
        subst hb
        constructor
        · simp [hasChar, hx]
        · simp [countOcc, List.countP_cons, hx]
    · cases hb : breakOn c xs with
      | none =>
        refine ⟨fun _ => ?_, fun a b h => ?_⟩
        · have hxs : hasChar c xs = false := ih.1 hb
          simp [hasChar, List.any_cons, hx] at hxs ⊢
          exact hxs
        · simp [breakOn, hx, hb] at h
      | some p =>
        refine ⟨fun h => ?_, fun a b h => ?_⟩
        · simp [breakOn, hx, hb] at h
        · simp only [breakOn, if_neg hx, hb, Option.some.injEq, Prod.mk.injEq] at h
          obtain ⟨_, hb2⟩ := h
          have hih := ih.2 p.1 p.2 (by simp [hb])
          subst hb2
          refine ⟨?_, ?_⟩
          · have hc : hasChar c (x :: xs) = (decide (x = c) || hasChar c xs) := rfl
            rw [hc, hih.1, Bool.or_true]
          · have hcount : countOcc c (x :: xs) = countOcc c xs := by
              simp [countOcc, List.countP_cons, hx]
            rw [hcount, hih.2]

/-- A character occurs in a string exactly when its occurrence count is
positive. -/
theorem hasChar_iff_countOcc (c : Char) (s : List Char) :
    hasChar c s = true ↔ 1 ≤ countOcc c s := by
  rw [hasChar, countOcc, List.any_eq_true]
  constructor
  · intro ⟨a, ha, hac⟩
    exact Nat.one_le_iff_ne_zero.mpr (Nat.pos_iff_ne_zero.mp
      (List.countP_pos_iff.mpr ⟨a, ha, hac⟩))
  · intro h
    exact List.countP_pos_iff.mp (Nat.lt_of_lt_of_le Nat.zero_lt_one h)

/-- `SplitN` with limit 2 produces two pieces exactly when the separator
occurs. -/
theorem splitN_two_length (c : Char) (s : List Char) :
    (splitN c 2 s).length = 2 ↔ hasChar c s = true := by
  have hdef : splitN c 2 s =
      (match breakOn c s with
        | none => [s]
        | some p => p.1 :: splitN c 1 p.2) := rfl
  cases hb : breakOn c s with
  | none =>
    have hf := (breakOn_spec c s).1 hb
    rw [hdef, hb]
    simp [hf]
  | some p =>
    have ht := (breakOn_spec c s).2 p.1 p.2 (by simp [hb])
    rw [hdef, hb]
    simp [splitN, ht.1]

/-- `SplitN` with limit 3 produces three pieces exactly when the separator
occurs at least twice. -/
theorem splitN_three_length (c : Char) (s : List Char) :
    (splitN c 3 s).length = 3 ↔ 2 ≤ countOcc c s := by
  have hdef : splitN c 3 s =
      (match breakOn c s with
        | none => [s]
        | some p => p.1 :: splitN c 2 p.2) := rfl
  cases hb : breakOn c s with
  | none =>
    have hf := (breakOn_spec c s).1 hb
    have h0 : countOcc c s = 0 := by
      by_contra h
      have h1 : 1 ≤ countOcc c s := Nat.one_le_iff_ne_zero.mpr h
      rw [(hasChar_iff_countOcc c s).mpr h1] at hf
      simp at hf
    rw [hdef, hb]
    simp [h0]
  | some p =>
    have ht := (breakOn_spec c s).2 p.1 p.2 (by simp [hb])
    have h2 := splitN_two_length c p.2
    have hc2 := hasChar_iff_countOcc c p.2
    rw [hdef, hb, List.length_cons, ht.2]
    constructor
    · intro h
      have hl : (splitN c 2 p.2).length = 2 := by omega
      have := hc2.mp (h2.mp hl)
      omega
    · intro h
      have h1 : 1 ≤ countOcc c p.2 := by omega
      have := h2.mpr (hc2.mpr h1)
      omega

/-- C4 (amended): `parseUrl` fails with the invalid-address error exactly
when the host contains fewer than two dots (so `SplitN(host, ".", 3)` gives
fewer than three segments) or the path, after removing one leading `/`,
contains no further `/` — the container and the object path are NOT
required to be non-empty; and on such a failure every public operation
returns the parse error untouched by (and without consulting) any store
capability, so no remote call is made. -/
theorem c4_parse_failure_characterization :
    (∀ u : GoURL,
        AzureBlobGetter.parseUrl u = Except.error GoErr.invalidURL ↔
          (countOcc '.' u.host < 2 ∨ hasChar '/' (trimPref ['/'] u.path) = false)) ∧
    (∀ (mkCred : List Char → List Char → Except GoErr Unit)
        (listSeq : List Char → List Char → List ListResult)
        (dl : List Char → List Char → Except GoErr (List Char))
        (dst : List Char) (u : GoURL) (fs : FS) (e : GoErr),
        AzureBlobGetter.parseUrl u = Except.error e →
          AzureBlobGetter.ClientMode mkCred listSeq u = Outcome.err e ∧
          AzureBlobGetter.Get mkCred listSeq dl dst u fs = Outcome.err e ∧
          AzureBlobGetter.GetFile mkCred dl dst u fs = Outcome.err e) := by
  constructor
  · intro u
    by_cases h1 : (splitN '.' 3 u.host).length = 3
    · by_cases h2 : (splitN '/' 2 (trimPref ['/'] u.path)).length = 2
      · have hcount : ¬ countOcc '.' u.host < 2 := by
          have := (splitN_three_length '.' u.host).mp h1
          omega
        have hslash : hasChar '/' (trimPref ['/'] u.path) = true :=
          (splitN_two_length '/' (trimPref ['/'] u.path)).mp h2
        simp [AzureBlobGetter.parseUrl, h1, h2, hcount, hslash]
      · have hslash : hasChar '/' (trimPref ['/'] u.path) = false := by
          cases hh : hasChar '/' (trimPref ['/'] u.path) with
          | false => rfl
          | true => exact absurd ((splitN_two_length '/' (trimPref ['/'] u.path)).mpr hh) h2
        simp [AzureBlobGetter.parseUrl, h1, h2, hslash]
    · have hcount : countOcc '.' u.host < 2 := by
        by_contra hc
        exact h1 ((splitN_three_length '.' u.host).mpr (by omega))
      simp [AzureBlobGetter.parseUrl, h1, hcount]
  · intro mkCred listSeq dl dst u fs e h
    refine ⟨?_, ?_, ?_⟩
    · simp [AzureBlobGetter.ClientMode, h]
    · simp [AzureBlobGetter.Get, h]
    · simp [AzureBlobGetter.GetFile, h]

/-- C4 witness: `https://acct.example/container` (one dot, single-segment
path) is rejected by the characterization, and the rejection reaches the
callers of all three operations as an error return with no capability
consulted. -/
theorem c4_parse_failure_characterization_witness :
    AzureBlobGetter.parseUrl ⟨"acct.example".toList, "/onlycontainer".toList, []⟩ =
      Except.error GoErr.invalidURL ∧
    AzureBlobGetter.ClientMode (fun _ _ => Except.ok ()) (fun _ _ => [])
      ⟨"acct.example".toList, "/onlycontainer".toList, []⟩ =
      Outcome.err GoErr.invalidURL ∧
    AzureBlobGetter.Get (fun _ _ => Except.ok ()) (fun _ _ => [])
      (fun _ n => Except.ok n) "dst".toList
      ⟨"acct.example".toList, "/onlycontainer".toList, []⟩ ⟨[], []⟩ =
      Outcome.err GoErr.invalidURL ∧
    AzureBlobGetter.GetFile (fun _ _ => Except.ok ()) (fun _ n => Except.ok n)
      "dst".toList ⟨"acct.example".toList, "/onlycontainer".toList, []⟩ ⟨[], []⟩ =
      Outcome.err GoErr.invalidURL := by
  have hp := (c4_parse_failure_characterization.1
    ⟨"acct.example".toList, "/onlycontainer".toList, []⟩).mpr (by decide)
  have hops := c4_parse_failure_characterization.2 (fun _ _ => Except.ok ())
    (fun _ _ => []) (fun _ n => Except.ok n) "dst".toList
    ⟨"acct.example".toList, "/onlycontainer".toList, []⟩ ⟨[], []⟩ GoErr.invalidURL hp
  exact ⟨hp, hops.1, hops.2.1, hops.2.2⟩

/-- Filtering one key out of an association list does not change whether a
different key is present. -/
theorem any_key_filter (files : List (List Char × List Char)) (p q : List Char)
    (hq : q ≠ p) :
    ((files.filter (fun e => !(decide (e.1 = p)))).any fun e => decide (e.1 = q)) =
      (files.any fun e => decide (e.1 = q)) := by
  induction files with
  | nil => rfl
  | cons e rest ih =>
    by_cases he : e.1 = p
    · have hne : ¬ e.1 = q := by rw [he]; exact fun h => hq h.symm
      simp [List.filter_cons, he, hne, ih]
      exact fun h => absurd h.symm hq
    · simp [List.filter_cons, he, ih]

/-- A truncating write makes exactly the written path a file, leaving every
other path's file status unchanged. -/
theorem hasFile_write (fs : FS) (p c q : List Char) :
    hasFile (writeFileFS fs p c) q = (decide (q = p) || hasFile fs q) := by
  by_cases hq : q = p
  · simp [hasFile, writeFileFS, hq]
  · have hpq : ¬ p = q := fun h => hq h.symm
    have h1 : (decide (q = p) : Bool) = false := by simp [hq]
    have h2 : (decide (p = q) : Bool) = false := by simp [hpq]
    rw [h1, Bool.false_or]
    show ((p, c) :: fs.files.filter (fun e => !(decide (e.1 = p)))).any
        (fun e => decide (e.1 = q)) = hasFile fs q
    rw [List.any_cons]
    show (decide (p = q) || _) = _
    rw [h2, Bool.false_or]
    exact any_key_filter fs.files p q hq

/-- Creating directories does not change which regular files exist. -/
theorem hasFile_mkdirAll (fs : FS) (d q : List Char) :
    hasFile (mkdirAllFS fs d) q = hasFile fs q := rfl

/-- After `RemoveAll dst`, no regular file remains at or below `dst`. -/
theorem hasFile_removeAll_under (fs : FS) (dst q : List Char)
    (h : underPath dst q = true) : hasFile (removeAllFS fs dst) q = false := by
  rw [hasFile, removeAllFS]
  rw [List.any_eq_false]
  intro e he
  rcases List.mem_filter.mp he with ⟨_, hkeep⟩
  intro hq
  rw [decide_eq_true_eq] at hq
  rw [hq, h] at hkeep
  simp at hkeep

/-- One successful `getObject`: the body is written at `dst` after the
parent directory is created. -/
theorem getObject_ok (dl : List Char → List Char → Except GoErr (List Char))
    (dst container blobName : List Char) (fs : FS) (body : List Char)
    (h : dl container blobName = Except.ok body) :
    AzureBlobGetter.getObject dl dst container blobName fs =
      Outcome.ok (writeFileFS (mkdirAllFS fs (fpDir dst)) dst body) := by
  simp [AzureBlobGetter.getObject, h]

/-- The inner loop of `Get`, run on items whose relative paths resolve and
with a store whose downloads all succeed, succeeds, and yields exactly the
old files plus one file per non-skipped item at its re-rooted destination;
directories are only added, never removed. -/
theorem getItems_ok (dl : List Char → List Char → Except GoErr (List Char))
    (dst container bp : List Char) :
    ∀ (items : List (List Char)) (fs : FS),
      (∀ n ∈ items, ['/'].isSuffixOf n = false → (fpRel bp n).isOk = true) →
      (∀ c b, (dl c b).isOk = true) →
      ∃ fs', getItems dl dst container bp items fs = Outcome.ok fs' ∧
        (∀ q, hasFile fs' q = true ↔
          (hasFile fs q = true ∨ ∃ n ∈ items, treeDst dst bp n = some q)) ∧
        (∀ d, d ∈ fs.dirs → d ∈ fs'.dirs) := by
  intro items
  induction items with
  | nil =>
    intro fs _ _
    exact ⟨fs, rfl, fun q => by simp, fun d hd => hd⟩
  | cons n rest ih =>
    intro fs hrel hdl
    by_cases hs : (['/'].isSuffixOf n : Bool) = true
    · obtain ⟨fs', heq, hmem, hdirs⟩ :=
        ih fs (fun m hm hm2 => hrel m (List.mem_cons_of_mem _ hm) hm2) hdl
      refine ⟨fs', by simpa [getItems, hs] using heq, ?_, hdirs⟩
      intro q
      rw [hmem q]
      constructor
      · rintro (h | ⟨m, hm, hmd⟩)
        · exact Or.inl h
        · exact Or.inr ⟨m, List.mem_cons_of_mem _ hm, hmd⟩
      · rintro (h | ⟨m, hm, hmd⟩)
        · exact Or.inl h
        · rcases List.mem_cons.mp hm with hm1 | hm2
          · subst hm1; simp [treeDst, hs] at hmd
          · exact Or.inr ⟨m, hm2, hmd⟩
    · have hsf : (['/'].isSuffixOf n : Bool) = false := by
        cases hv : (['/'].isSuffixOf n : Bool) with
        | false => rfl
        | true => exact absurd hv hs
      have hrn := hrel n (List.mem_cons_self n rest) hsf
      cases hfr : fpRel bp n with
      | error e =>
        have hfalse : (Except.error e : Except GoErr (List Char)).isOk = false := rfl
        rw [hfr, hfalse] at hrn
        exact Bool.noConfusion hrn
      | ok r =>
        cases hdb : dl container n with
        | error e =>
          have hok := hdl container n
          have hfalse : (Except.error e : Except GoErr (List Char)).isOk = false := rfl
          rw [hdb, hfalse] at hok
          exact Bool.noConfusion hok
        | ok body =>
          obtain ⟨fs', heq, hmem, hdirs⟩ :=
            ih (writeFileFS (mkdirAllFS fs (fpDir (fpJoin dst r))) (fpJoin dst r) body)
              (fun m hm hm2 => hrel m (List.mem_cons_of_mem _ hm) hm2) hdl
          have htd : treeDst dst bp n = some (fpJoin dst r) := by
            simp [treeDst, hs, hfr]
          refine ⟨fs', ?_, ?_, ?_⟩
          · rw [show getItems dl dst container bp (n :: rest) fs =
                (match AzureBlobGetter.getObject dl (fpJoin dst r) container n fs with
                  | Outcome.ok fs1 => getItems dl dst container bp rest fs1
                  | Outcome.err e => Outcome.err e
                  | Outcome.fatal e => Outcome.fatal e
                  | Outcome.panic => Outcome.panic) from by simp [getItems, hs, hfr]]
            rw [getObject_ok dl (fpJoin dst r) container n fs body hdb]
            exact heq
          · intro q
            rw [hmem q, hasFile_write, hasFile_mkdirAll]
            rw [Bool.or_eq_true, decide_eq_true_eq]
            constructor
            · rintro ((h | h) | ⟨m, hm, hmd⟩)
              · exact Or.inr ⟨n, List.mem_cons_self n rest, by rw [htd, h]⟩
              · exact Or.inl h
              · exact Or.inr ⟨m, List.mem_cons_of_mem _ hm, hmd⟩
            · rintro (h | ⟨m, hm, hmd⟩)
              · exact Or.inl (Or.inr h)
              · rcases List.mem_cons.mp hm with hm1 | hm2
                · subst hm1
                  rw [htd] at hmd
                  exact Or.inl (Or.inl (Option.some.inj hmd).symm)
                · exact Or.inr ⟨m, hm2, hmd⟩
          · intro d hd
            exact hdirs d (List.mem_append_right _ hd)

/-- The marker loop of `Get`, run over non-nil pages whose items' relative
paths resolve and with a store whose downloads all succeed, succeeds and
yields exactly the old files plus one file per non-skipped listed item at
its re-rooted destination; directories are only added, never removed. -/
theorem getLoop_ok (dl : List Char → List Char → Except GoErr (List Char))
    (dst container bp : List Char) :
    ∀ (rs : List ListResult) (fs : FS),
      (∀ r ∈ rs, r.1.isSome = true) →
      (∀ r ∈ rs, ∀ n ∈ respItems r, ['/'].isSuffixOf n = false → (fpRel bp n).isOk = true) →
      (∀ c b, (dl c b).isOk = true) →
      ∃ fs', getLoop dl dst container bp rs fs = Outcome.ok fs' ∧
        (∀ q, hasFile fs' q = true ↔
          (hasFile fs q = true ∨ ∃ r ∈ rs, ∃ n ∈ respItems r, treeDst dst bp n = some q)) ∧
        (∀ d, d ∈ fs.dirs → d ∈ fs'.dirs) := by
  intro rs
  induction rs with
  | nil =>
    intro fs _ _ _
    exact ⟨fs, rfl, fun q => by simp, fun d hd => hd⟩
  | cons r rest ih =>
    intro fs hsome hrel hdl
    rcases r with ⟨o, e⟩
    cases o with
    | none =>
      have := hsome (none, e) (List.mem_cons_self _ _)
      simp [Option.isSome] at this
    | some resp =>
      obtain ⟨fs1, heq1, hmem1, hdirs1⟩ :=
        getItems_ok dl dst container bp resp.blobItems fs
          (fun n hn => hrel (some resp, e) (List.mem_cons_self _ _) n hn) hdl
      obtain ⟨fs', heq2, hmem2, hdirs2⟩ :=
        ih fs1 (fun x hx => hsome x (List.mem_cons_of_mem _ hx))
          (fun x hx => hrel x (List.mem_cons_of_mem _ hx)) hdl
      refine ⟨fs', ?_, ?_, fun d hd => hdirs2 d (hdirs1 d hd)⟩
      · rw [show getLoop dl dst container bp ((some resp, e) :: rest) fs =
            (match getItems dl dst container bp resp.blobItems fs with
              | Outcome.ok fs1 => getLoop dl dst container bp rest fs1
              | Outcome.err e2 => Outcome.err e2
              | Outcome.fatal e2 => Outcome.fatal e2
              | Outcome.panic => Outcome.panic) from rfl]
        rw [heq1]
        exact heq2
      · intro q
        rw [hmem2 q, hmem1 q]
        constructor
        · rintro ((h | ⟨n, hn, hnd⟩) | ⟨x, hx, n, hn, hnd⟩)
          · exact Or.inl h
          · exact Or.inr ⟨(some resp, e), List.mem_cons_self _ _, n, hn, hnd⟩
          · exact Or.inr ⟨x, List.mem_cons_of_mem _ hx, n, hn, hnd⟩
        · rintro (h | ⟨x, hx, n, hn, hnd⟩)
          · exact Or.inl (Or.inl h)
          · rcases List.mem_cons.mp hx with hx1 | hx2
            · subst hx1
              exact Or.inl (Or.inr ⟨n, hn, hnd⟩)
            · exact Or.inr ⟨x, hx2, n, hn, hnd⟩

/-- The concrete tree-fetch of the spec's §8: fetching `.../folder` into
root `D` over a store holding `folder/main.tf` and `folder/subfolder/sub.tf`
yields exactly the files `D/main.tf` and `D/subfolder/sub.tf` and nothing at
or below `D/folder`. -/
def c8Example : Bool :=
  match AzureBlobGetter.Get (fun _ _ => Except.ok ())
      (fun _ _ =>
        [(some ⟨["folder/main.tf".toList, "folder/subfolder/sub.tf".toList]⟩, none)])
      (fun _ n => Except.ok ('#' :: n)) "D".toList
      ⟨"acct.blob.core.windows.net".toList, "/go-getter/folder".toList, []⟩
      ⟨[], []⟩ with
  | Outcome.ok fs =>
    hasFile fs "D/main.tf".toList && hasFile fs "D/subfolder/sub.tf".toList &&
      decide (fs.files.length = 2) &&
      fs.files.all (fun e => !(underPath "D/folder".toList e.1))
  | _ => false

/-- C8: during the tree fetch every item whose name ends in `/` is skipped;
a run over items whose downloads succeed produces exactly one file per
remaining item, at `filepath.Join dst (filepath.Rel blobPath item)`; and on
the spec's concrete store, fetching `.../folder` into `D` produces
`D/main.tf` and `D/subfolder/sub.tf` and no file under `D/folder`. -/
theorem c8_tree_rerooting :
    (∀ (dl : List Char → List Char → Except GoErr (List Char))
        (dst container bp n : List Char) (rest : List (List Char)) (fs : FS),
        ['/'].isSuffixOf n = true →
        getItems dl dst container bp (n :: rest) fs =
          getItems dl dst container bp rest fs) ∧
    (∀ (dl : List Char → List Char → Except GoErr (List Char))
        (dst container bp : List Char) (items : List (List Char)) (fs : FS),
        (∀ n ∈ items, ['/'].isSuffixOf n = false → (fpRel bp n).isOk = true) →
        (∀ c b, (dl c b).isOk = true) →
        ∃ fs', getItems dl dst container bp items fs = Outcome.ok fs' ∧
          ∀ q, hasFile fs' q = true ↔
            (hasFile fs q = true ∨ ∃ n ∈ items, treeDst dst bp n = some q)) ∧
    c8Example = true := by
  refine ⟨?_, ?_, by decide⟩
  · intro dl dst container bp n rest fs h
    simp [getItems, h]
  · intro dl dst container bp items fs hrel hdl
    obtain ⟨fs', heq, hmem, _⟩ := getItems_ok dl dst container bp items fs hrel hdl
    exact ⟨fs', heq, hmem⟩

/-- C8 witness: a directory-marker item `folder/` is skipped, and a run over
the single item `folder/main.tf` yields exactly the re-rooted file. -/
theorem c8_tree_rerooting_witness :
    getItems (fun _ n => Except.ok n) "D".toList "c".toList "folder".toList
      ["folder/".toList] ⟨[], []⟩ =
      getItems (fun _ n => Except.ok n) "D".toList "c".toList "folder".toList
        [] ⟨[], []⟩ ∧
    (∃ fs', getItems (fun _ n => Except.ok n) "D".toList "c".toList "folder".toList
        ["folder/main.tf".toList] ⟨[], []⟩ = Outcome.ok fs' ∧
        ∀ q, hasFile fs' q = true ↔
          (hasFile (⟨[], []⟩ : FS) q = true ∨
            ∃ n ∈ ["folder/main.tf".toList],
              treeDst "D".toList "folder".toList n = some q)) :=
  ⟨c8_tree_rerooting.1 (fun _ n => Except.ok n) "D".toList "c".toList
      "folder".toList "folder/".toList [] ⟨[], []⟩ (by decide),
   c8_tree_rerooting.2.1 (fun _ n => Except.ok n) "D".toList "c".toList
      "folder".toList ["folder/main.tf".toList] ⟨[], []⟩ (by decide)
      (fun c b => rfl)⟩

/-- C9: when the address parses, the credential builds, every page arrives
non-nil with resolvable items, and every download succeeds, a `Get` into an
already-existing destination root removes it in its entirety before the
transfer and creates the parents of the destination root, so the files at
or below the destination root afterwards are exactly the fetched remote
objects at their re-rooted paths — no leftovers from the prior state. -/
theorem c9_pristine_destination
    (mkCred : List Char → List Char → Except GoErr Unit)
    (listSeq : List Char → List Char → List ListResult)
    (dl : List Char → List Char → Except GoErr (List Char))
    (dst : List Char) (u : GoURL) (p : ParsedUrl) (fs : FS)
    (hp : AzureBlobGetter.parseUrl u = Except.ok p)
    (hc : mkCred p.accountName p.accessKey = Except.ok ())
    (hex : fsExists fs dst = true)
    (hdl : ∀ c b, (dl c b).isOk = true)
    (hsome : ∀ r ∈ listSeq p.container p.blobPath, r.1.isSome = true)
    (hrel : ∀ r ∈ listSeq p.container p.blobPath, ∀ n ∈ respItems r,
        ['/'].isSuffixOf n = false → (fpRel p.blobPath n).isOk = true) :
    ∃ fs', AzureBlobGetter.Get mkCred listSeq dl dst u fs = Outcome.ok fs' ∧
      (∀ q, underPath dst q = true →
        (hasFile fs' q = true ↔ ∃ r ∈ listSeq p.container p.blobPath,
          ∃ n ∈ respItems r, treeDst dst p.blobPath n = some q)) ∧
      (∀ d ∈ ancestors (fpDir dst), d ∈ fs'.dirs) := by
  obtain ⟨fs', heq, hmem, hdirs⟩ :=
    getLoop_ok dl dst p.container p.blobPath (listSeq p.container p.blobPath)
      (mkdirAllFS (removeAllFS fs dst) (fpDir dst)) hsome hrel hdl
  refine ⟨fs', ?_, ?_, ?_⟩
  · simp only [AzureBlobGetter.Get, hp, AzureBlobGetter.getBobClient, hc, hex,
      if_true]
    exact heq
  · intro q hq
    rw [hmem q]
    have h2 : hasFile (mkdirAllFS (removeAllFS fs dst) (fpDir dst)) q = false := by
      rw [hasFile_mkdirAll]
      exact hasFile_removeAll_under fs dst q hq
    rw [h2]
    simp
  · intro d hd
    exact hdirs d (List.mem_append_left _ hd)

/-- C9 witness: a destination root `D` holding a leftover `D/old.tf` is
wiped and repopulated with exactly the single fetched object. -/
theorem c9_pristine_destination_witness :
    ∃ fs', AzureBlobGetter.Get (fun _ _ => Except.ok ())
        (fun _ _ => [(some ⟨["folder/main.tf".toList]⟩, none)])
        (fun _ n => Except.ok n) "D".toList
        ⟨"acct.blob.core.windows.net".toList, "/go-getter/folder".toList, []⟩
        ⟨[("D/old.tf".toList, "stale".toList)], []⟩ = Outcome.ok fs' ∧
      (∀ q, underPath "D".toList q = true →
        (hasFile fs' q = true ↔ ∃ r ∈ [((some ⟨["folder/main.tf".toList]⟩ :
              Option ListBlobsResponse), (none : Option GoErr))],
          ∃ n ∈ respItems r, treeDst "D".toList "folder".toList n = some q)) ∧
      (∀ d ∈ ancestors (fpDir "D".toList), d ∈ fs'.dirs) :=
  c9_pristine_destination (fun _ _ => Except.ok ())
    (fun _ _ => [(some ⟨["folder/main.tf".toList]⟩, none)])
    (fun _ n => Except.ok n) "D".toList
    ⟨"acct.blob.core.windows.net".toList, "/go-getter/folder".toList, []⟩
    ⟨"acct".toList, "core.windows.net".toList, "go-getter".toList,
      "folder".toList, []⟩
    ⟨[("D/old.tf".toList, "stale".toList)], []⟩
    (by decide) (by decide) (by decide) (fun c b => rfl) (by decide) (by decide)
